import Mathlib

/-!
Shallow embedding of the epoch-based reclamation engine in src/src/epoch.rs.

Conventions of the embedding:
  * usize values (the global epoch counter, pointer addresses) are modelled as
    Nat and isize values (per-registration local epochs, buffer stamps) as Int;
    the code casts the counter with `as isize`, which is value-preserving for
    every counter below 2^63, the range in which every execution the spec
    considers stays (the counter grows by at most 1 per advance), so no
    wrap-around is modelled.
  * raw pointers are modelled by their address as a Nat, with 0 standing for
    the null pointer; a NonNull pointer is a Nat known to be nonzero.
  * a &'static dyn Reclaim trait object is identified by a Nat tag; invoking
    reclamation is modelled by recording the entry in an event list, so that
    "the strategy runs exactly once on this pointer" is an equation on that
    list.
  * each atomic compare_exchange is modelled explicitly; for the sequential
    semantics of an operation the observed value at the CAS is the value the
    same function read earlier, and where a claim is about behaviour under
    contention the value observed at the CAS is an explicit parameter
    (ctrAtCas, or the trace of observed heads in create_register_go).
-/

/-- Registration (epoch.rs lines 151-155): one pool slot. `counter` models the
Cell of isize holding the local epoch (-1 = sentinel, not in a critical
section); `active` models the AtomicBool, true = free / available, false =
currently claimed by a Worker. The `next` link is represented by the position
in the list of registrations. -/
structure Registration where
  counter : Int
  active : Bool
deriving DecidableEq, Repr

/-- ListEntry (epoch.rs lines 55-58): a retired entry, a NonNull pointer plus
the reclaim strategy to apply to it. `value` is nonzero whenever the entry was
built by ListEntry.new. -/
structure ListEntry where
  value : Nat
  deleter : Nat
deriving DecidableEq, Repr

/-- ListEntry::new (epoch.rs lines 61-71): NonNull::new succeeds exactly on a
non-null pointer, so a null value yields none and no entry is recorded. -/
def ListEntry.new (value deleter : Nat) : Option ListEntry :=
  if value = 0 then none else some { value := value, deleter := deleter }

/-- The Rust struct List (epoch.rs lines 41-53): one generation buffer, an
epoch stamp plus the retired entries pushed into it. Named RList here because
List is the Lean list type. -/
structure RList where
  stamp : Int
  elements : List ListEntry
deriving DecidableEq, Repr

/-- List::new (epoch.rs lines 47-52): stamp -1, no elements. -/
def RList.new : RList :=
  { stamp := -1, elements := [] }

/-- The shared part of the static EPOCH (epoch.rs lines 24-37): the global
AtomicUsize counter and the registration list, head first (create_register
inserts at the head). -/
structure Epoch where
  counter : Nat
  registrations : List Registration
deriving DecidableEq, Repr

/-- Epoch::new (epoch.rs lines 31-36): counter 0, empty registration list. -/
def Epoch.new : Epoch :=
  { counter := 0, registrations := [] }

/-- One compare_exchange on an atomic usize cell holding `current`: returns
the value stored afterwards and whether the exchange succeeded. -/
def casUsize (current expected new : Nat) : Nat × Bool :=
  if current = expected then (new, true) else (current, false)

/-- The registration walk of try_advance (epoch.rs lines 313-328): true when
the loop runs off the end of the list, i.e. every registration it visits has a
negative local counter (the sentinel) or one equal to count; false when it
aborts at the first registration holding any other value. -/
def scanRegistrations (count : Nat) : List Registration → Bool
  | [] => true
  | reg :: rest =>
      if reg.counter < 0 ∨ reg.counter = (count : Int) then scanRegistrations count rest
      else false

/-- try_advance (epoch.rs lines 310-334) over the counter value `count` read
at entry and the registration list seen by the walk. `ctrAtCas` is the value
the counter holds when the final compare_exchange executes (under contention
it may differ from count; sequentially it is count). Returns (the value
try_advance returns, the counter value after the call). On an aborted walk the
counter is left untouched and count is returned; on a complete walk one CAS
from count to count+1 is attempted and count+1 is returned whether or not the
CAS succeeded. -/
def try_advance_core (count : Nat) (regs : List Registration) (ctrAtCas : Nat) : Nat × Nat :=
  if scanRegistrations count regs then
    (count + 1, (casUsize ctrAtCas count (count + 1)).1)
  else
    (count, ctrAtCas)

/-- Sequential try_advance over an Epoch state: the CAS observes the same
counter value the walk read. -/
def try_advance (st : Epoch) : Nat × Epoch :=
  ((try_advance_core st.counter st.registrations st.counter).1,
   { st with counter := (try_advance_core st.counter st.registrations st.counter).2 })

/-- find_register (epoch.rs lines 158-179): walk the registration list and
try to CAS each active flag from true (free) to false (claimed); on the first
success set that registration's counter to -1 and hand the slot out. Returns
(index of the claimed slot if any, the registration list afterwards); when no
slot is free the result is (none, the list unchanged) and nothing is
allocated. -/
def find_register : List Registration → Option Nat × List Registration
  | [] => (none, [])
  | reg :: rest =>
      if reg.active then
        (some 0, { counter := -1, active := false } :: rest)
      else
        ((find_register rest).1.map (fun i => i + 1), reg :: (find_register rest).2)

/-- The registration each create_register iteration allocates (epoch.rs lines
184-188): sentinel local epoch, already claimed (active = false). -/
def newRegistration : Registration :=
  { counter := -1, active := false }

/-- create_register (epoch.rs lines 181-212): the CAS retry loop under
contention. `current` is the head read at the top of the iteration; each
element of `heads` is the head value the compare_exchange of one iteration
observes (a lost CAS frees the just-built box and the loop re-reads the head
and tries again); once the trace is exhausted the head is unchanged since the
read, so the CAS succeeds and the brand-new registration is inserted at the
head. Returns the registration list after the successful insertion. No
iteration scans for a free slot. -/
def create_register_go : List (List Registration) → List Registration → List Registration
  | [], current => newRegistration :: current
  | observed :: rest, current =>
      if observed = current then newRegistration :: current
      else create_register_go rest observed

/-- Sequential create_register: no contention, the first CAS succeeds. -/
def create_register (regs : List Registration) : List Registration :=
  create_register_go [] regs

/-- Modelled from the spec (section 4.1), for comparison with
create_register_go: the spec says a lost insertion CAS frees the node and
retries the whole acquisition from the top, re-scanning the list for a freed
slot before allocating again. No function of src/src/epoch.rs performs such a
re-scan; this definition follows the spec's words. -/
def acquireRetrySpec : List (List Registration) → List Registration → List Registration
  | [], current => newRegistration :: current
  | observed :: rest, current =>
      if observed = current then newRegistration :: current
      else
        match find_register observed with
        | (some _, regs2) => regs2
        | (none, _) => acquireRetrySpec rest observed

/-- Worker::drop (epoch.rs lines 223-227): release unconditionally stores
true (free) into the registration's active flag and touches nothing else. -/
def Worker.drop (reg : Registration) : Registration :=
  { reg with active := true }

/-- Res::drop (epoch.rs lines 236-240): dropping the guard sets the worker's
registration counter back to the sentinel -1 and touches nothing else. -/
def Res.drop (reg : Registration) : Registration :=
  { reg with counter := -1 }

/-- What Worker::load (epoch.rs lines 243-251) produces: the epoch state
after its try_advance call, the local epoch it announced, and the pointer
value held inside the returned Res guard. -/
structure LoadResult where
  epoch : Epoch
  localEpoch : Int
  resPtr : Nat
deriving DecidableEq, Repr

/-- Worker::load (epoch.rs lines 243-251): runs try_advance, announces the
returned epoch as the registration's counter, loads the shared pointer
(acquire) and wraps it in a Res guard. -/
def Worker.load (st : Epoch) (sharedPtr : Nat) : LoadResult :=
  { epoch := (try_advance st).2,
    localEpoch := ((try_advance st).1 : Int),
    resPtr := sharedPtr }

/-- What Worker::rearrange (epoch.rs lines 287-308) produces: the RECENT and
PREVIOUS thread-local buffers afterwards, plus the list of entries whose
deleter.reclaim the final loop invokes, in order. -/
structure RotateResult where
  recent : RList
  previous : RList
  reclaimed : List ListEntry
deriving DecidableEq, Repr

/-- Worker::rearrange (epoch.rs lines 287-308): reads the global counter g,
replaces RECENT by a fresh buffer stamped g holding just the entry being
retired (nothing when the pointer is null), moves the old RECENT contents
into PREVIOUS restamped g - 1, and reclaims every entry the old PREVIOUS
held. -/
def Worker.rearrange (globalCounter : Nat) (recent previous : RList) (ptrVal deleter : Nat) :
    RotateResult :=
  let vec : List ListEntry :=
    match ListEntry.new ptrVal deleter with
    | some e => [e]
    | none => []
  { recent := { stamp := (globalCounter : Int), elements := vec },
    previous := { stamp := (globalCounter : Int) - 1, elements := recent.elements },
    reclaimed := previous.elements }

/-- The thread-local pair of generation buffers (the RECENT and PREVIOUS
statics of epoch.rs lines 15-18). -/
structure ThreadBufs where
  recent : RList
  previous : RList
deriving DecidableEq, Repr

/-- What Worker::swap (epoch.rs lines 257-285) produces: the epoch state
after its try_advance call, the worker's local epoch at return, both
thread-local buffers, the shared pointer afterwards, and the entries
reclaimed during the call. -/
structure SwapResult where
  epoch : Epoch
  localEpoch : Int
  recent : RList
  previous : RList
  sharedPtr : Nat
  reclaimed : List ListEntry
deriving DecidableEq, Repr

/-- Worker::swap (epoch.rs lines 257-285), sequential semantics: try_advance
returns count and the epoch is announced; the new value is boxed at address
newPtr and the CAS on the shared pointer succeeds, displacing sharedPtr. If
RECENT's stamp is strictly below count, rearrange runs (the displaced pointer
goes into the freshly opened RECENT); otherwise the displaced pointer is
appended to RECENT (silently skipped when null). Both branches set the local
epoch to -1 and return; the trailing reset on line 284 is unreachable. -/
def Worker.swap (st : Epoch) (bufs : ThreadBufs) (sharedPtr newPtr deleter : Nat) : SwapResult :=
  let count := (try_advance st).1
  let st2 := (try_advance st).2
  if bufs.recent.stamp < (count : Int) then
    let rot := Worker.rearrange st2.counter bufs.recent bufs.previous sharedPtr deleter
    { epoch := st2, localEpoch := -1, recent := rot.recent, previous := rot.previous,
      sharedPtr := newPtr, reclaimed := rot.reclaimed }
  else
    let recent2 :=
      match ListEntry.new sharedPtr deleter with
      | some e => { stamp := bufs.recent.stamp, elements := bufs.recent.elements ++ [e] }
      | none => bufs.recent
    { epoch := st2, localEpoch := -1, recent := recent2, previous := bufs.previous,
      sharedPtr := newPtr, reclaimed := [] }

/-- A registration slot of the global list together with a ghost count of the
Worker handles currently holding it (the Rust type system makes a Worker an
exclusive handle; holds records how many exist for this slot). -/
structure Slot where
  reg : Registration
  holds : Nat
deriving DecidableEq, Repr

/-- The process-wide state the threads share: the global counter and the
registration list (head first), each slot annotated with its ghost hold
count. -/
structure GState where
  counter : Nat
  slots : List Slot
deriving DecidableEq, Repr

/-- The state at process start (epoch.rs line 7, Epoch::new): counter 0 and
no registrations. -/
def initState : GState :=
  { counter := 0, slots := [] }

/-- The atomic actions of the engine as a step relation on the shared state.
try_advance is taken as one step (its walk plus its single CAS); the
announcement a load or swap performs afterwards is a separate announce step,
over-approximated to any non-negative epoch value; resetLocal covers the
sentinel reset done by Res::drop, by find_register and by both return paths
of swap; acquire is find_register's successful CAS on a free slot (which also
resets that slot's counter, epoch.rs line 171); create is create_register's
successful head insertion; release is Worker::drop by a thread that holds the
slot. Thread-local generation buffers are not part of this shared state. -/
inductive Step : GState → GState → Prop where
  | tryAdvance (s : GState) :
      Step s { s with
        counter := (try_advance_core s.counter (s.slots.map Slot.reg) s.counter).2 }
  | announce (s : GState) (i e : Nat) (sl : Slot) (hget : s.slots.get? i = some sl) :
      Step s { s with
        slots := s.slots.set i { sl with reg := { sl.reg with counter := (e : Int) } } }
  | resetLocal (s : GState) (i : Nat) (sl : Slot) (hget : s.slots.get? i = some sl) :
      Step s { s with
        slots := s.slots.set i { sl with reg := { sl.reg with counter := -1 } } }
  | acquire (s : GState) (i : Nat) (sl : Slot) (hget : s.slots.get? i = some sl)
      (hfree : sl.reg.active = true) :
      Step s { s with
        slots := s.slots.set i { reg := newRegistration, holds := sl.holds + 1 } }
  | create (s : GState) :
      Step s { s with slots := { reg := newRegistration, holds := 1 } :: s.slots }
  | release (s : GState) (i : Nat) (sl : Slot) (hget : s.slots.get? i = some sl)
      (hheld : 0 < sl.holds) :
      Step s { s with
        slots := s.slots.set i { reg := Worker.drop sl.reg, holds := sl.holds - 1 } }

/-- Zero or more steps. -/
inductive Reaches : GState → GState → Prop where
  | refl (s : GState) : Reaches s s
  | tail {s t u : GState} : Reaches s t → Step t u → Reaches s u

/-- A state the program can be in: reachable from the initial state. -/
def Reachable (s : GState) : Prop :=
  Reaches initState s

/-- Local epochs are never below the sentinel: every value a step stores into
a slot's counter is -1 or the cast of a usize. -/
def LocalsWF (s : GState) : Prop :=
  ∀ sl ∈ s.slots, -1 ≤ sl.reg.counter

/-- Hold-count sanity: no slot is held by two Workers at once, and a free
slot is held by none. -/
def SlotsWF (s : GState) : Prop :=
  ∀ sl ∈ s.slots, sl.holds ≤ 1 ∧ (sl.reg.active = true → sl.holds = 0)

theorem localsWF_step {s t : GState} (hs : Step s t) (hw : LocalsWF s) : LocalsWF t := by
  cases hs with
  | tryAdvance => exact hw
  | announce i e sl hget =>
      intro x hx
      rcases List.mem_or_eq_of_mem_set hx with hx | rfl
      · exact hw x hx
      · exact le_trans (by decide) (Int.natCast_nonneg e)
  | resetLocal i sl hget =>
      intro x hx
      rcases List.mem_or_eq_of_mem_set hx with hx | rfl
      · exact hw x hx
      · exact le_refl (-1)
  | acquire i sl hget hfree =>
      intro x hx
      rcases List.mem_or_eq_of_mem_set hx with hx | rfl
      · exact hw x hx
      · exact le_refl (-1)
  | create =>
      intro x hx
      rcases List.mem_cons.mp hx with rfl | hx
      · exact le_refl (-1)
      · exact hw x hx
  | release i sl hget hheld =>
      intro x hx
      rcases List.mem_or_eq_of_mem_set hx with hx | rfl
      · exact hw x hx
      · exact hw sl (List.get?_mem hget)

theorem slotsWF_step {s t : GState} (hs : Step s t) (hw : SlotsWF s) : SlotsWF t := by
  cases hs with
  | tryAdvance => exact hw
  | announce i e sl hget =>
      intro x hx
      rcases List.mem_or_eq_of_mem_set hx with hx | rfl
      · exact hw x hx
      · exact hw sl (List.get?_mem hget)
  | resetLocal i sl hget =>
      intro x hx
      rcases List.mem_or_eq_of_mem_set hx with hx | rfl
      · exact hw x hx
      · exact hw sl (List.get?_mem hget)
  | acquire i sl hget hfree =>
      intro x hx
      rcases List.mem_or_eq_of_mem_set hx with hx | rfl
      · exact hw x hx
      · have h0 : sl.holds = 0 := (hw sl (List.get?_mem hget)).2 hfree
        refine ⟨?_, ?_⟩
        · show sl.holds + 1 ≤ 1
          omega
        · intro hact
          exact absurd hact (by simp [newRegistration])
  | create =>
      intro x hx
      rcases List.mem_cons.mp hx with rfl | hx
      · refine ⟨le_refl 1, ?_⟩
        intro hact
        exact absurd hact (by simp [newRegistration])
      · exact hw x hx
  | release i sl hget hheld =>
      intro x hx
      rcases List.mem_or_eq_of_mem_set hx with hx | rfl
      · exact hw x hx
      · have h1 : sl.holds ≤ 1 := (hw sl (List.get?_mem hget)).1
        refine ⟨?_, fun _ => ?_⟩
        · show sl.holds - 1 ≤ 1
          omega
        · show sl.holds - 1 = 0
          omega

theorem localsWF_reaches {s t : GState} (h : Reaches s t) (hw : LocalsWF s) : LocalsWF t := by
  induction h with
  | refl => exact hw
  | tail hst hstep ih => exact localsWF_step hstep ih

theorem slotsWF_reaches {s t : GState} (h : Reaches s t) (hw : SlotsWF s) : SlotsWF t := by
  induction h with
  | refl => exact hw
  | tail hst hstep ih => exact slotsWF_step hstep ih

theorem localsWF_init : LocalsWF initState := by
  intro sl h
  simp [initState] at h

theorem slotsWF_init : SlotsWF initState := by
  intro sl h
  simp [initState] at h

theorem localsWF_reachable {s : GState} (h : Reachable s) : LocalsWF s :=
  localsWF_reaches h localsWF_init

theorem slotsWF_reachable {s : GState} (h : Reachable s) : SlotsWF s :=
  slotsWF_reaches h slotsWF_init

theorem scan_true_mem (count : Nat) (regs : List Registration)
    (h : scanRegistrations count regs = true) :
    ∀ r ∈ regs, r.counter < 0 ∨ r.counter = (count : Int) := by
  induction regs with
  | nil => intro r hr; cases hr
  | cons reg rest ih =>
      intro r hr
      rw [scanRegistrations] at h
      by_cases hc : reg.counter < 0 ∨ reg.counter = (count : Int)
      · rw [if_pos hc] at h
        rcases List.mem_cons.mp hr with rfl | hr2
        · exact hc
        · exact ih h r hr2
      · rw [if_neg hc] at h
        exact absurd h (by simp)

theorem scan_false_iff (count : Nat) (regs : List Registration) :
    scanRegistrations count regs = false ↔
      ∃ r ∈ regs, 0 ≤ r.counter ∧ r.counter ≠ (count : Int) := by
  induction regs with
  | nil => simp [scanRegistrations]
  | cons reg rest ih =>
      by_cases hc : reg.counter < 0 ∨ reg.counter = (count : Int)
      · rw [scanRegistrations, if_pos hc, ih]
        constructor
        · rintro ⟨r, hr, h0, hne⟩
          exact ⟨r, List.mem_cons_of_mem _ hr, h0, hne⟩
        · rintro ⟨r, hr, h0, hne⟩
          rcases List.mem_cons.mp hr with rfl | hr2
          · rcases hc with hneg | heq
            · exact absurd hneg (not_lt.mpr h0)
            · exact absurd heq hne
          · exact ⟨r, hr2, h0, hne⟩
      · rw [scanRegistrations, if_neg hc]
        push_neg at hc
        constructor
        · intro _
          exact ⟨reg, List.mem_cons_self reg rest, hc.1, hc.2⟩
        · intro _
          rfl

theorem step_counter {s t : GState} (hs : Step s t) :
    t.counter = s.counter ∨ t.counter = s.counter + 1 := by
  cases hs with
  | tryAdvance =>
      by_cases hscan : scanRegistrations s.counter (s.slots.map Slot.reg) = true
      · right
        show (try_advance_core s.counter (s.slots.map Slot.reg) s.counter).2 = s.counter + 1
        simp [try_advance_core, hscan, casUsize]
      · left
        show (try_advance_core s.counter (s.slots.map Slot.reg) s.counter).2 = s.counter
        simp [try_advance_core, Bool.eq_false_iff.mpr hscan]
  | announce i e sl hget => left; rfl
  | resetLocal i sl hget => left; rfl
  | acquire i sl hget hfree => left; rfl
  | create => left; rfl
  | release i sl hget hheld => left; rfl

theorem reaches_counter_mono {s t : GState} (h : Reaches s t) : s.counter ≤ t.counter := by
  induction h with
  | refl => exact le_refl _
  | tail hst hstep ih =>
      rcases step_counter hstep with h1 | h1 <;> omega

theorem find_register_none_iff (regs : List Registration) :
    (find_register regs).1 = none ↔ ∀ r ∈ regs, r.active = false := by
  induction regs with
  | nil => simp [find_register]
  | cons reg rest ih =>
      by_cases hact : reg.active
      · rw [find_register, if_pos hact]
        simp only [List.mem_cons]
        constructor
        · intro h
          cases h
        · intro h
          exact absurd (h reg (Or.inl rfl)) (by simp [hact])
      · rw [find_register, if_neg hact]
        simp only [Option.map_eq_none'] at *
        constructor
        · intro h r hr
          rcases List.mem_cons.mp hr with rfl | hr2
          · exact Bool.eq_false_iff.mpr hact
          · exact ih.mp h r hr2
        · intro h
          exact ih.mpr (fun r hr => h r (List.mem_cons_of_mem _ hr))

theorem find_register_none_unchanged (regs : List Registration)
    (h : (find_register regs).1 = none) : (find_register regs).2 = regs := by
  induction regs with
  | nil => rfl
  | cons reg rest ih =>
      by_cases hact : reg.active
      · rw [find_register, if_pos hact] at h
        cases h
      · rw [find_register, if_neg hact] at h ⊢
        simp only [Option.map_eq_none'] at h
        simp [ih h]

theorem create_register_go_shape (heads : List (List Registration)) :
    ∀ current, ∃ t, create_register_go heads current = newRegistration :: t ∧
      (t = current ∨ t ∈ heads) := by
  induction heads with
  | nil =>
      intro current
      exact ⟨current, rfl, Or.inl rfl⟩
  | cons observed rest ih =>
      intro current
      by_cases h : observed = current
      · refine ⟨current, ?_, Or.inl rfl⟩
        rw [create_register_go, if_pos h]
      · rcases ih observed with ⟨t, ht, hmem⟩
        refine ⟨t, ?_, ?_⟩
        · rw [create_register_go, if_neg h, ht]
        · rcases hmem with rfl | hmem
          · exact Or.inr (List.mem_cons_self _ _)
          · exact Or.inr (List.mem_cons_of_mem _ hmem)

/-- C1: in every reachable state the global counter changes only by a
try_advance step, and only from count to count+1 after a complete walk of the
registration list in which every registration's local epoch was the sentinel
-1 or equal to count. -/
theorem advancement_safety (s t : GState) (hr : Reachable s) (hs : Step s t)
    (hne : t.counter ≠ s.counter) :
    t.counter = s.counter + 1 ∧
    ∀ sl ∈ s.slots, sl.reg.counter = -1 ∨ sl.reg.counter = (s.counter : Int) := by
  have hwf : LocalsWF s := localsWF_reachable hr
  cases hs with
  | tryAdvance =>
      by_cases hscan : scanRegistrations s.counter (s.slots.map Slot.reg) = true
      · refine ⟨?_, ?_⟩
        · show (try_advance_core s.counter (s.slots.map Slot.reg) s.counter).2 = s.counter + 1
          simp [try_advance_core, hscan, casUsize]
        · intro sl hsl
          have h := scan_true_mem s.counter (s.slots.map Slot.reg) hscan sl.reg
            (List.mem_map_of_mem Slot.reg hsl)
          rcases h with hneg | heq
          · left
            have h2 := hwf sl hsl
            omega
          · right
            exact heq
      · exfalso
        apply hne
        show (try_advance_core s.counter (s.slots.map Slot.reg) s.counter).2 = s.counter
        simp [try_advance_core, Bool.eq_false_iff.mpr hscan]
  | announce i e sl hget => exact absurd rfl hne
  | resetLocal i sl hget => exact absurd rfl hne
  | acquire i sl hget hfree => exact absurd rfl hne
  | create => exact absurd rfl hne
  | release i sl hget hheld => exact absurd rfl hne

/-- Witness for C1 at the initial state: the very first try_advance step
increments the counter from 0 to 1 while the registration list is empty. -/
theorem advancement_safety_witness :
    ({ initState with
        counter := (try_advance_core initState.counter (initState.slots.map Slot.reg)
          initState.counter).2 } : GState).counter = initState.counter + 1 ∧
    ∀ sl ∈ initState.slots, sl.reg.counter = -1 ∨ sl.reg.counter = (initState.counter : Int) :=
  advancement_safety initState _ (Reaches.refl initState) (Step.tryAdvance initState)
    (by decide)

/-- C2: try_advance reads the counter once as count and walks the whole list;
a registration with a non-negative local epoch different from count makes it
return count with the counter untouched, while a clean walk makes it attempt
exactly one CAS from count to count+1 and return count+1 whatever value that
CAS observed. -/
theorem try_advance_functional (count ctrAtCas : Nat) (regs : List Registration) :
    (scanRegistrations count regs = false ↔
      ∃ r ∈ regs, 0 ≤ r.counter ∧ r.counter ≠ (count : Int)) ∧
    (scanRegistrations count regs = false →
      try_advance_core count regs ctrAtCas = (count, ctrAtCas)) ∧
    (scanRegistrations count regs = true →
      (try_advance_core count regs ctrAtCas).1 = count + 1 ∧
      (try_advance_core count regs ctrAtCas).2 = (casUsize ctrAtCas count (count + 1)).1) := by
  refine ⟨scan_false_iff count regs, ?_, ?_⟩
  · intro h
    simp [try_advance_core, h]
  · intro h
    simp [try_advance_core, h]

/-- C3: after swap's successful CAS with announced epoch e, a RECENT stamp
strictly below e triggers the rotation and the displaced pointer lands in the
freshly opened RECENT buffer, otherwise the displaced pointer and its
strategy are appended to the existing RECENT buffer; both paths return with
the local epoch reset to the sentinel -1. -/
theorem swap_retire_branches (st : Epoch) (bufs : ThreadBufs) (sharedPtr newPtr deleter : Nat) :
    (bufs.recent.stamp < ((try_advance st).1 : Int) →
      Worker.swap st bufs sharedPtr newPtr deleter =
        { epoch := (try_advance st).2, localEpoch := -1,
          recent := (Worker.rearrange (try_advance st).2.counter bufs.recent bufs.previous
            sharedPtr deleter).recent,
          previous := (Worker.rearrange (try_advance st).2.counter bufs.recent bufs.previous
            sharedPtr deleter).previous,
          sharedPtr := newPtr,
          reclaimed := (Worker.rearrange (try_advance st).2.counter bufs.recent bufs.previous
            sharedPtr deleter).reclaimed } ∧
      (sharedPtr ≠ 0 →
        (Worker.swap st bufs sharedPtr newPtr deleter).recent.elements =
          [{ value := sharedPtr, deleter := deleter }])) ∧
    (¬ bufs.recent.stamp < ((try_advance st).1 : Int) →
      (sharedPtr ≠ 0 →
        (Worker.swap st bufs sharedPtr newPtr deleter).recent.elements =
          bufs.recent.elements ++ [{ value := sharedPtr, deleter := deleter }]) ∧
      (Worker.swap st bufs sharedPtr newPtr deleter).recent.stamp = bufs.recent.stamp ∧
      (Worker.swap st bufs sharedPtr newPtr deleter).previous = bufs.previous ∧
      (Worker.swap st bufs sharedPtr newPtr deleter).reclaimed = []) ∧
    (Worker.swap st bufs sharedPtr newPtr deleter).localEpoch = -1 := by
  refine ⟨?_, ?_, ?_⟩
  · intro h
    refine ⟨?_, ?_⟩
    · simp [Worker.swap, h]
    · intro hnz
      simp [Worker.swap, h, Worker.rearrange, ListEntry.new, hnz]
  · intro h
    refine ⟨?_, ?_, ?_, ?_⟩
    · intro hnz
      simp [Worker.swap, h, ListEntry.new, hnz]
    · by_cases hz : sharedPtr = 0 <;>
        simp [Worker.swap, h, ListEntry.new, hz]
    · by_cases hz : sharedPtr = 0 <;>
        simp [Worker.swap, h, ListEntry.new, hz]
    · by_cases hz : sharedPtr = 0 <;>
        simp [Worker.swap, h, ListEntry.new, hz]
  · by_cases h : bufs.recent.stamp < ((try_advance st).1 : Int) <;>
      by_cases hz : sharedPtr = 0 <;>
        simp [Worker.swap, h, ListEntry.new, hz]

/-- C4: rearrange reads the global epoch g, opens a fresh RECENT buffer
stamped g holding only the entry being retired right now, moves the old
RECENT contents into PREVIOUS restamped g-1, and reclaims each entry the old
PREVIOUS buffer held exactly once, on its own pointer with its own
strategy. -/
theorem rearrange_rotation (g : Nat) (recent previous : RList) (ptrVal deleter : Nat) :
    (Worker.rearrange g recent previous ptrVal deleter).recent.stamp = (g : Int) ∧
    (ptrVal ≠ 0 →
      (Worker.rearrange g recent previous ptrVal deleter).recent.elements =
        [{ value := ptrVal, deleter := deleter }]) ∧
    (Worker.rearrange g recent previous ptrVal deleter).previous =
      { stamp := (g : Int) - 1, elements := recent.elements } ∧
    (Worker.rearrange g recent previous ptrVal deleter).reclaimed = previous.elements ∧
    (∀ e : ListEntry,
      ((Worker.rearrange g recent previous ptrVal deleter).reclaimed).count e =
        previous.elements.count e) := by
  refine ⟨rfl, ?_, rfl, rfl, fun e => rfl⟩
  intro h
  simp [Worker.rearrange, ListEntry.new, h]

/-- C5: the global counter starts at 0, every step leaves it unchanged or
moves it from count to count+1 (the one CAS try_advance attempts), and along
any run it never decreases. -/
theorem epoch_monotone :
    initState.counter = 0 ∧
    (∀ s t : GState, Step s t → t.counter = s.counter ∨ t.counter = s.counter + 1) ∧
    (∀ s t : GState, Reaches s t → s.counter ≤ t.counter) :=
  ⟨rfl, fun _ _ h => step_counter h, fun _ _ h => reaches_counter_mono h⟩

/-- A free registration slot, as Worker::drop leaves one. -/
def freeSlotReg : Registration :=
  { counter := -1, active := true }

/-- C6 counterexample: create_register reads an empty head, loses its
insertion CAS because the head it observes is [freeSlotReg] (the race also
freed a slot), and then simply allocates and inserts a brand-new registration;
the acquisition the spec describes would instead re-scan, claim the free slot
and insert nothing, so the two end in different registration lists. -/
theorem create_register_no_rescan_cex :
    create_register_go [[freeSlotReg]] [] = [newRegistration, freeSlotReg] ∧
    acquireRetrySpec [[freeSlotReg]] [] = [{ counter := -1, active := false }] ∧
    create_register_go [[freeSlotReg]] [] ≠ acquireRetrySpec [[freeSlotReg]] [] := by
  decide

/-- C6 amended: when create_register's head-insertion CAS loses the race, the
just-built node is freed and only create_register's own allocate-and-insert
loop is retried with the newly observed head — the list is not re-scanned for
a freed slot — so every run ends by inserting a brand-new claimed
registration at the head of the list it last observed. -/
theorem create_register_retry_behavior :
    (∀ observed rest current, observed ≠ current →
      create_register_go (observed :: rest) current = create_register_go rest observed) ∧
    (∀ observed rest current, observed = current →
      create_register_go (observed :: rest) current = newRegistration :: current) ∧
    (∀ heads current, ∃ t, create_register_go heads current = newRegistration :: t ∧
      (t = current ∨ t ∈ heads)) := by
  refine ⟨?_, ?_, ?_⟩
  · intro observed rest current h
    rw [create_register_go, if_neg h]
  · intro observed rest current h
    rw [create_register_go, if_pos h]
  · intro heads current
    exact create_register_go_shape heads current

/-- C7: load announces exactly the epoch its try_advance call returned, hands
back the loaded shared pointer inside the guard, and dropping the guard
resets the local epoch to the sentinel -1 while changing nothing else in the
registration. -/
theorem load_and_guard_drop (st : Epoch) (sharedPtr : Nat) (reg : Registration) :
    (Worker.load st sharedPtr).localEpoch = ((try_advance st).1 : Int) ∧
    (Worker.load st sharedPtr).resPtr = sharedPtr ∧
    (Worker.load st sharedPtr).epoch = (try_advance st).2 ∧
    (Res.drop reg).counter = -1 ∧
    (Res.drop reg).active = reg.active :=
  ⟨rfl, rfl, rfl, rfl, rfl⟩

/-- C8: in every reachable state each registration slot is held by at most
one Worker at a time, and a slot whose flag is free is held by none — slots
are handed out only by the acquire CAS from free to claimed or created
already claimed, and only a release by the holding Worker frees the flag. -/
theorem registration_exclusive_hold (s : GState) (hr : Reachable s) (sl : Slot)
    (hsl : sl ∈ s.slots) :
    sl.holds ≤ 1 ∧ (sl.reg.active = true → sl.holds = 0) :=
  slotsWF_reachable hr sl hsl

/-- Witness for C8 in the state reached by one create_register insertion: the
brand-new slot is held exactly once and is not free. -/
theorem registration_exclusive_hold_witness :
    ({ reg := newRegistration, holds := 1 } : Slot).holds ≤ 1 ∧
    (({ reg := newRegistration, holds := 1 } : Slot).reg.active = true →
      ({ reg := newRegistration, holds := 1 } : Slot).holds = 0) :=
  registration_exclusive_hold
    { initState with slots := { reg := newRegistration, holds := 1 } :: initState.slots }
    (Reaches.tail (Reaches.refl initState) (Step.create initState))
    { reg := newRegistration, holds := 1 }
    (List.mem_cons_self _ _)

/-- C9: a null displaced pointer produces no retire entry: ListEntry.new
returns none, the append branch of swap pushes nothing, the rotation branch
opens an empty RECENT buffer, and a reclaim strategy is never invoked on a
null pointer. -/
theorem null_swap_skipped (st : Epoch) (bufs : ThreadBufs) (newPtr deleter : Nat) :
    ListEntry.new 0 deleter = none ∧
    (¬ bufs.recent.stamp < ((try_advance st).1 : Int) →
      (Worker.swap st bufs 0 newPtr deleter).recent = bufs.recent) ∧
    (bufs.recent.stamp < ((try_advance st).1 : Int) →
      (Worker.swap st bufs 0 newPtr deleter).recent.elements = []) ∧
    ((∀ e ∈ bufs.previous.elements, e.value ≠ 0) →
      ∀ e ∈ (Worker.swap st bufs 0 newPtr deleter).reclaimed, e.value ≠ 0) := by
  refine ⟨rfl, ?_, ?_, ?_⟩
  · intro h
    simp [Worker.swap, h, ListEntry.new]
  · intro h
    simp [Worker.swap, h, Worker.rearrange, ListEntry.new]
  · intro hprev e he
    by_cases h : bufs.recent.stamp < ((try_advance st).1 : Int)
    · have hrec : (Worker.swap st bufs 0 newPtr deleter).reclaimed = bufs.previous.elements := by
        simp [Worker.swap, h, Worker.rearrange]
      rw [hrec] at he
      exact hprev e he
    · have hrec : (Worker.swap st bufs 0 newPtr deleter).reclaimed = [] := by
        simp [Worker.swap, h, ListEntry.new]
      rw [hrec] at he
      cases he

/-- C10: find_register hands back none exactly when no registration is free
(in particular on the empty list), and then the list is unchanged and nothing
was allocated; allocation happens only in create_register, which always
inserts a brand-new registration without scanning for a free slot first. -/
theorem find_register_none_create_always (regs : List Registration) :
    ((find_register regs).1 = none ↔ ∀ r ∈ regs, r.active = false) ∧
    ((find_register regs).1 = none → (find_register regs).2 = regs) ∧
    (∀ heads, ∃ t, create_register_go heads regs = newRegistration :: t) := by
  refine ⟨find_register_none_iff regs, find_register_none_unchanged regs, ?_⟩
  intro heads
  rcases create_register_go_shape heads regs with ⟨t, ht, _⟩
  exact ⟨t, ht⟩
